import Mathlib

/-!
# Verification of the a2a-copilot core (session registry, tool-evidence
recorder, task bridge)

Shallow embedding of the repository's core TypeScript modules:

* `src/copilot/session-manager.ts` — `SessionManager.getOrCreate`,
  `destroySession`, plus the evidence-recorder helpers `sanitize` and
  `truncate` and the constants `MAX_DATA_SIZE` / `SENSITIVE_KEYS`.
* `src/copilot/executor.ts` — `CopilotExecutor.execute` (streaming and
  buffered modes), `cancelTask`, `extractText`.
* `src/copilot/event-publisher.ts` — the shapes of the published events.

JavaScript `Date.now()` is modelled as an explicit `Nat` parameter, the
Copilot runtime's freshly assigned session id as an explicit `String`
parameter, and the session's asynchronous event stream as an explicit list
of events delivered before the wall-clock deadline.  JS strings are modelled
as Lean `String`s (the payloads in question are ASCII, where JS UTF-16
lengths and Lean code-point lengths agree).
-/

namespace A2AC

/-! ## Session manager (`src/copilot/session-manager.ts`) -/

/-- One entry of the `contextSessions` map (`SessionEntry` in the source).
The opaque SDK session object is represented by its `sessionId`. -/
structure SessionEntry where
  sessionId : String
  createdAt : Nat
  lastUsed : Nat
deriving Repr, DecidableEq

/-- The slice of the resolved configuration that `getOrCreate` reads:
`config.session.reuseByContext` and `config.session.ttl` (optional, the
source falls back to `3_600_000` ms). -/
structure SessionConfig where
  reuseByContext : Bool
  ttl : Option Nat
deriving Repr, DecidableEq

/-- `session.ttl ?? 3_600_000` from the source. -/
def SessionConfig.ttlMs (cfg : SessionConfig) : Nat :=
  cfg.ttl.getD 3600000

/-- The `contextSessions` map, as an insertion-ordered association list
(the iteration/update order of a JS `Map`). -/
structure SMState where
  contextSessions : List (String × SessionEntry)
deriving Repr, DecidableEq

/-- JS `Map.get`. -/
def mapGet (m : List (String × SessionEntry)) (k : String) : Option SessionEntry :=
  match m with
  | [] => none
  | (k', v) :: rest => if k' = k then some v else mapGet rest k

/-- JS `Map.set`: replace in place when the key exists (insertion order is
kept), otherwise append. -/
def mapSet (m : List (String × SessionEntry)) (k : String) (v : SessionEntry) :
    List (String × SessionEntry) :=
  match m with
  | [] => [(k, v)]
  | (k', v') :: rest =>
    if k' = k then (k, v) :: rest else (k', v') :: mapSet rest k v

/-- JS `Map.delete`. -/
def mapDelete (m : List (String × SessionEntry)) (k : String) :
    List (String × SessionEntry) :=
  match m with
  | [] => []
  | (k', v') :: rest =>
    if k' = k then rest else (k', v') :: mapDelete rest k

/-- The `{ sessionId, session, isNew }` record returned by `getOrCreate`
(the opaque `session` handle is carried by `sessionId`). -/
structure GOCResult where
  sessionId : String
  isNew : Bool
deriving Repr, DecidableEq

/-- Result of one `getOrCreate` call: the returned record, the updated map
state, and the list of session ids whose `destroy()` path was invoked. -/
structure GOCOut where
  result : GOCResult
  state : SMState
  destroyed : List String
deriving Repr, DecidableEq

/-- `SessionManager.destroySession(contextId)`: look up the entry; when it
exists run its (best-effort) `destroy()` and delete it from the map, when it
does not the call is a no-op.  Destroy errors are swallowed in the source,
so the model records only that the destroy path ran. -/
def destroySession (st : SMState) (contextId : String) : SMState × List String :=
  match mapGet st.contextSessions contextId with
  | none => (st, [])
  | some entry =>
    (⟨mapDelete st.contextSessions contextId⟩, [entry.sessionId])

/-- The tail of `getOrCreate`: create a new SDK session (`newSessionId` is
the id the runtime assigns), then `if (contextId) this.contextSessions.set(...)`
— the entry is stored only for a truthy (non-empty) contextId. -/
def createNew (st : SMState) (contextId : String) (now : Nat)
    (newSessionId : String) (destroyed : List String) : GOCOut :=
  let entry : SessionEntry := ⟨newSessionId, now, now⟩
  { result := ⟨newSessionId, true⟩
    state :=
      if contextId ≠ "" then ⟨mapSet st.contextSessions contextId entry⟩ else st
    destroyed := destroyed }

/-- `SessionManager.getOrCreate(contextId)`.  The reuse branch runs only
under `session.reuseByContext && contextId` (a JS truthiness test: the empty
string is falsy); within TTL the existing entry is returned with `lastUsed`
refreshed, otherwise the stale entry is destroyed and a fresh session is
created. -/
def getOrCreate (cfg : SessionConfig) (st : SMState) (contextId : String)
    (now : Nat) (newSessionId : String) : GOCOut :=
  if cfg.reuseByContext ∧ contextId ≠ "" then
    match mapGet st.contextSessions contextId with
    | some existing =>
      if now - existing.createdAt < cfg.ttlMs then
        { result := ⟨existing.sessionId, false⟩
          state :=
            ⟨mapSet st.contextSessions contextId { existing with lastUsed := now }⟩
          destroyed := [] }
      else
        let d := destroySession st contextId
        createNew d.1 contextId now newSessionId d.2
    | none => createNew st contextId now newSessionId []
  else createNew st contextId now newSessionId []

/-! ### Map lemmas -/

theorem mapGet_mapSet_self (m : List (String × SessionEntry)) (k : String)
    (v : SessionEntry) : mapGet (mapSet m k v) k = some v := by
  induction m with
  | nil => simp [mapSet, mapGet]
  | cons h t ih =>
    by_cases hk : h.1 = k
    · simp [mapSet, mapGet, hk]
    · simp [mapSet, mapGet, hk, ih]

/-- After any `getOrCreate` with reuse enabled and a non-empty contextId, the
map holds an entry for that contextId whose sessionId is the returned one. -/
theorem getOrCreate_entry_tracks_result (cfg : SessionConfig) (st : SMState)
    (c : String) (t : Nat) (sid : String)
    (hreuse : cfg.reuseByContext = true) (hc : c ≠ "") :
    ∃ e, mapGet (getOrCreate cfg st c t sid).state.contextSessions c = some e ∧
      e.sessionId = (getOrCreate cfg st c t sid).result.sessionId := by
  unfold getOrCreate
  simp only [hreuse, hc, ne_eq, not_false_iff, true_and, if_true]
  cases hget : mapGet st.contextSessions c with
  | none =>
    refine ⟨⟨sid, t, t⟩, ?_, rfl⟩
    simp [createNew, hc, mapGet_mapSet_self]
  | some existing =>
    by_cases hage : t - existing.createdAt < cfg.ttlMs
    · simp only [hage, if_true]
      exact ⟨{ existing with lastUsed := t }, mapGet_mapSet_self _ _ _, rfl⟩
    · simp only [hage, if_false]
      refine ⟨⟨sid, t, t⟩, ?_, rfl⟩
      simp [createNew, hc, mapGet_mapSet_self]

/-- Single-call shape lemma: with reuse enabled, a non-empty contextId and a
live (within-TTL) entry, `getOrCreate` reuses that entry. -/
theorem getOrCreate_reuse_eq (cfg : SessionConfig) (st : SMState)
    (c : String) (now : Nat) (sid : String) (e : SessionEntry)
    (hreuse : cfg.reuseByContext = true) (hc : c ≠ "")
    (he : mapGet st.contextSessions c = some e)
    (hage : now - e.createdAt < cfg.ttlMs) :
    getOrCreate cfg st c now sid =
      ⟨⟨e.sessionId, false⟩,
       ⟨mapSet st.contextSessions c { e with lastUsed := now }⟩, []⟩ := by
  unfold getOrCreate
  simp [hreuse, hc, he, hage]

/-- C3: with session reuse enabled, a second `getOrCreate` for the same
contextId whose entry is still within TTL returns the first call's
sessionId, marks `isNew = false`, destroys nothing (no new session), and
refreshes the entry's `lastUsed` to the second call's clock. -/
theorem getOrCreate_reuse_within_ttl (cfg : SessionConfig) (st : SMState)
    (c : String) (t1 t2 : Nat) (sid1 sid2 : String) (e : SessionEntry)
    (hreuse : cfg.reuseByContext = true) (hc : c ≠ "")
    (he : mapGet (getOrCreate cfg st c t1 sid1).state.contextSessions c = some e)
    (hage : t2 - e.createdAt < cfg.ttlMs) :
    (getOrCreate cfg (getOrCreate cfg st c t1 sid1).state c t2 sid2).result.sessionId
        = (getOrCreate cfg st c t1 sid1).result.sessionId ∧
    (getOrCreate cfg (getOrCreate cfg st c t1 sid1).state c t2 sid2).result.isNew = false ∧
    (getOrCreate cfg (getOrCreate cfg st c t1 sid1).state c t2 sid2).destroyed = [] ∧
    mapGet (getOrCreate cfg (getOrCreate cfg st c t1 sid1).state c t2 sid2).state.contextSessions c
        = some { e with lastUsed := t2 } := by
  obtain ⟨e', he', hsid⟩ := getOrCreate_entry_tracks_result cfg st c t1 sid1 hreuse hc
  have hee : e' = e := by
    have := he'.symm.trans he
    exact (Option.some.injEq _ _).mp this
  subst hee
  rw [getOrCreate_reuse_eq cfg _ c t2 sid2 e' hreuse hc he hage]
  exact ⟨hsid, rfl, rfl, mapGet_mapSet_self _ _ _⟩

/-- Closed instantiation of `getOrCreate_reuse_within_ttl`: a fresh context,
first call at t=0 creating session "s1", second call at t=5. -/
theorem getOrCreate_reuse_within_ttl_witness :
    (getOrCreate ⟨true, none⟩ (getOrCreate ⟨true, none⟩ ⟨[]⟩ "ctx-1" 0 "s1").state
        "ctx-1" 5 "s2").result.sessionId
      = (getOrCreate ⟨true, none⟩ ⟨[]⟩ "ctx-1" 0 "s1").result.sessionId ∧
    (getOrCreate ⟨true, none⟩ (getOrCreate ⟨true, none⟩ ⟨[]⟩ "ctx-1" 0 "s1").state
        "ctx-1" 5 "s2").result.isNew = false ∧
    (getOrCreate ⟨true, none⟩ (getOrCreate ⟨true, none⟩ ⟨[]⟩ "ctx-1" 0 "s1").state
        "ctx-1" 5 "s2").destroyed = [] ∧
    mapGet (getOrCreate ⟨true, none⟩ (getOrCreate ⟨true, none⟩ ⟨[]⟩ "ctx-1" 0 "s1").state
        "ctx-1" 5 "s2").state.contextSessions "ctx-1"
      = some ⟨"s1", 0, 5⟩ :=
  getOrCreate_reuse_within_ttl ⟨true, none⟩ ⟨[]⟩ "ctx-1" 0 5 "s1" "s2" ⟨"s1", 0, 0⟩
    rfl (by decide) (by decide) (by decide)

/-- C4: with reuse enabled and an existing entry whose TTL has elapsed,
`getOrCreate` returns a fresh session (a different sessionId, provided the
runtime-assigned id is fresh), reports `isNew = true`, runs the prior
entry's destroy path exactly once, and stores the replacement entry. -/
theorem getOrCreate_expired_replaces (cfg : SessionConfig) (st : SMState)
    (c : String) (now : Nat) (sid : String) (e : SessionEntry)
    (hreuse : cfg.reuseByContext = true) (hc : c ≠ "")
    (he : mapGet st.contextSessions c = some e)
    (hexp : ¬ now - e.createdAt < cfg.ttlMs)
    (hfresh : sid ≠ e.sessionId) :
    (getOrCreate cfg st c now sid).result.sessionId = sid ∧
    (getOrCreate cfg st c now sid).result.sessionId ≠ e.sessionId ∧
    (getOrCreate cfg st c now sid).result.isNew = true ∧
    (getOrCreate cfg st c now sid).destroyed = [e.sessionId] ∧
    mapGet (getOrCreate cfg st c now sid).state.contextSessions c = some ⟨sid, now, now⟩ := by
  unfold getOrCreate
  simp only [hreuse, hc, ne_eq, not_false_iff, true_and, if_true, he, hexp, if_false]
  unfold destroySession
  simp only [he]
  refine ⟨rfl, hfresh, rfl, rfl, ?_⟩
  simp [createNew, hc, mapGet_mapSet_self]

/-- Closed instantiation of `getOrCreate_expired_replaces`: default TTL
(3600000 ms), entry created at t=0, second call at t=3600000. -/
theorem getOrCreate_expired_replaces_witness :
    (getOrCreate ⟨true, none⟩ ⟨[("ctx-1", ⟨"s1", 0, 0⟩)]⟩ "ctx-1" 3600000 "s2").result.sessionId = "s2" ∧
    (getOrCreate ⟨true, none⟩ ⟨[("ctx-1", ⟨"s1", 0, 0⟩)]⟩ "ctx-1" 3600000 "s2").result.sessionId ≠ "s1" ∧
    (getOrCreate ⟨true, none⟩ ⟨[("ctx-1", ⟨"s1", 0, 0⟩)]⟩ "ctx-1" 3600000 "s2").result.isNew = true ∧
    (getOrCreate ⟨true, none⟩ ⟨[("ctx-1", ⟨"s1", 0, 0⟩)]⟩ "ctx-1" 3600000 "s2").destroyed = ["s1"] ∧
    mapGet (getOrCreate ⟨true, none⟩ ⟨[("ctx-1", ⟨"s1", 0, 0⟩)]⟩ "ctx-1" 3600000 "s2").state.contextSessions "ctx-1"
      = some ⟨"s2", 3600000, 3600000⟩ :=
  getOrCreate_expired_replaces ⟨true, none⟩ ⟨[("ctx-1", ⟨"s1", 0, 0⟩)]⟩ "ctx-1"
    3600000 "s2" ⟨"s1", 0, 0⟩ rfl (by decide) (by decide) (by decide) (by decide)

/-- C10: `getOrCreate` with the empty-string contextId (falsy in JS) never
takes the reuse branch and never stores an entry: it always creates a fresh
session, returns `isNew = true` with the runtime-assigned id, destroys
nothing, and leaves the context→session map unchanged. -/
theorem getOrCreate_empty_context (cfg : SessionConfig) (st : SMState)
    (now : Nat) (sid : String) :
    (getOrCreate cfg st "" now sid).result.isNew = true ∧
    (getOrCreate cfg st "" now sid).result.sessionId = sid ∧
    (getOrCreate cfg st "" now sid).state = st ∧
    (getOrCreate cfg st "" now sid).destroyed = [] := by
  unfold getOrCreate createNew
  simp

/-! ## Tool-evidence recorder helpers (`sanitize`, `truncate` in
`src/copilot/mcp-hooks.ts`) -/

mutual

/-- JSON-like JS values flowing through the tool hooks.  JS numbers are
modelled as integers (the payloads the hooks see are JSON tool arguments;
no claim depends on float formatting).  Object fields keep insertion
order, as `Object.entries` does.  Arrays and field lists are their own
mutual inductive types (isomorphic to `List`) so that all functions below
are plain structural recursions. -/
inductive Jval where
  | null
  | bool (b : Bool)
  | num (n : Int)
  | str (s : String)
  | arr (xs : JvalList)
  | obj (fields : JvalFields)
deriving DecidableEq

/-- The elements of a JSON array. -/
inductive JvalList where
  | nil
  | cons (hd : Jval) (tl : JvalList)
deriving DecidableEq

/-- The key/value fields of a JSON object, in insertion order. -/
inductive JvalFields where
  | nil
  | cons (k : String) (v : Jval) (tl : JvalFields)
deriving DecidableEq

end

/-- JS `String.prototype.toLowerCase`, modelled character-wise (the strings
involved are ASCII, where JS and `Char.toLower` agree). -/
def jsToLower (s : String) : String :=
  String.mk (s.data.map Char.toLower)

/-- Is `p` a prefix of the second list?  (Helper for substring search.) -/
def charsPrefix : List Char → List Char → Bool
  | [], _ => true
  | _ :: _, [] => false
  | p :: ps, h :: hs => p == h && charsPrefix ps hs

/-- Does `pat` occur as a contiguous run in the list? -/
def charsOccurs (pat : List Char) : List Char → Bool
  | [] => pat.isEmpty
  | h :: hs => charsPrefix pat (h :: hs) || charsOccurs pat hs

/-- JS `hay.includes(pat)`: case-sensitive substring test. -/
def includesSub (hay pat : String) : Bool :=
  charsOccurs pat.data hay.data

/-- The fixed `SENSITIVE_KEYS` set from the source. -/
def SENSITIVE_KEYS : List String :=
  ["token", "access_token", "authorization", "api_key", "apikey",
   "password", "secret", "credential"]

/-- `SENSITIVE_KEYS.has(key.toLowerCase())`. -/
def isSensitiveKey (k : String) : Bool :=
  SENSITIVE_KEYS.contains (jsToLower k)

/-- The redaction marker written for sensitive keys. -/
def redactedMarker : String := "<redacted>"

mutual

/-- `sanitize` from the source: primitives and null pass through, arrays map
`sanitize`, objects are rebuilt with sensitive keys (case-insensitive)
replaced by the redaction marker and other values sanitized recursively. -/
def sanitize : Jval → Jval
  | .null => .null
  | .bool b => .bool b
  | .num n => .num n
  | .str s => .str s
  | .arr xs => .arr (sanitizeList xs)
  | .obj fs => .obj (sanitizeFields fs)

def sanitizeList : JvalList → JvalList
  | .nil => .nil
  | .cons x xs => .cons (sanitize x) (sanitizeList xs)

def sanitizeFields : JvalFields → JvalFields
  | .nil => .nil
  | .cons k v fs =>
    .cons k (if isSensitiveKey k then Jval.str redactedMarker else sanitize v)
      (sanitizeFields fs)

end

mutual

/-- True when no key anywhere in the value (at any nesting depth, arrays
included) is in the sensitive set. -/
def noSensitive : Jval → Bool
  | .arr xs => noSensitiveList xs
  | .obj fs => noSensitiveFields fs
  | _ => true

def noSensitiveList : JvalList → Bool
  | .nil => true
  | .cons x xs => noSensitive x && noSensitiveList xs

def noSensitiveFields : JvalFields → Bool
  | .nil => true
  | .cons k v fs => !isSensitiveKey k && noSensitive v && noSensitiveFields fs

end

mutual

/-- True when every sensitive-named field anywhere in the value holds
exactly the redaction marker. -/
def allRedacted : Jval → Bool
  | .arr xs => allRedactedList xs
  | .obj fs => allRedactedFields fs
  | _ => true

def allRedactedList : JvalList → Bool
  | .nil => true
  | .cons x xs => allRedacted x && allRedactedList xs

def allRedactedFields : JvalFields → Bool
  | .nil => true
  | .cons k v fs =>
    (if isSensitiveKey k then v == Jval.str redactedMarker else allRedacted v)
      && allRedactedFields fs

end

mutual

theorem sanitize_allRedacted : ∀ v, allRedacted (sanitize v) = true
  | .null => rfl
  | .bool _ => rfl
  | .num _ => rfl
  | .str _ => rfl
  | .arr xs => by
    simpa [sanitize, allRedacted] using sanitizeList_allRedacted xs
  | .obj fs => by
    simpa [sanitize, allRedacted] using sanitizeFields_allRedacted fs

theorem sanitizeList_allRedacted : ∀ xs, allRedactedList (sanitizeList xs) = true
  | .nil => rfl
  | .cons x xs => by
    simp [sanitizeList, allRedactedList, sanitize_allRedacted x,
      sanitizeList_allRedacted xs]

theorem sanitizeFields_allRedacted :
    ∀ fs, allRedactedFields (sanitizeFields fs) = true
  | .nil => rfl
  | .cons k v fs => by
    by_cases hk : isSensitiveKey k
    · simp [sanitizeFields, allRedactedFields, hk, sanitizeFields_allRedacted fs]
    · simp [sanitizeFields, allRedactedFields, hk, sanitize_allRedacted v,
        sanitizeFields_allRedacted fs]

end

mutual

theorem sanitize_id : ∀ v, noSensitive v = true → sanitize v = v
  | .null, _ => rfl
  | .bool _, _ => rfl
  | .num _, _ => rfl
  | .str _, _ => rfl
  | .arr xs, h => by
    have hx := sanitizeList_id xs (by simpa [noSensitive] using h)
    simp [sanitize, hx]
  | .obj fs, h => by
    have hf := sanitizeFields_id fs (by simpa [noSensitive] using h)
    simp [sanitize, hf]

theorem sanitizeList_id : ∀ xs, noSensitiveList xs = true → sanitizeList xs = xs
  | .nil, _ => rfl
  | .cons x xs, h => by
    simp only [noSensitiveList, Bool.and_eq_true] at h
    simp [sanitizeList, sanitize_id x h.1, sanitizeList_id xs h.2]

theorem sanitizeFields_id :
    ∀ fs, noSensitiveFields fs = true → sanitizeFields fs = fs
  | .nil, _ => rfl
  | .cons k v fs, h => by
    simp only [noSensitiveFields, Bool.and_eq_true, Bool.not_eq_true'] at h
    simp [sanitizeFields, h.1.1, sanitize_id v h.1.2, sanitizeFields_id fs h.2]

end

mutual

/-- The claim's input/output relation, from its words: objects keep their
keys in order; a sensitive-named field may hold anything (the redaction
conjunct `allRedacted` constrains it); a non-sensitive field whose value
contains no sensitive key anywhere is byte-identical in the output; a
non-sensitive field whose value does contain one recurses (only its nested
sensitive keys may differ); arrays relate element-wise; atoms are
byte-identical. -/
def preservesClean : Jval → Jval → Bool
  | .obj fs, .obj fs' => preservesCleanFields fs fs'
  | .arr xs, .arr xs' => preservesCleanList xs xs'
  | v, v' => v == v'

def preservesCleanList : JvalList → JvalList → Bool
  | .nil, .nil => true
  | .cons x xs, .cons y ys => preservesClean x y && preservesCleanList xs ys
  | _, _ => false

def preservesCleanFields : JvalFields → JvalFields → Bool
  | .nil, .nil => true
  | .cons k v fs, .cons k' v' fs' =>
    k == k' &&
    (if isSensitiveKey k then true
     else if noSensitive v then v == v'
     else preservesClean v v') &&
    preservesCleanFields fs fs'
  | _, _ => false

end

mutual

theorem sanitize_preservesClean : ∀ v, preservesClean v (sanitize v) = true
  | .null => by simp [sanitize, preservesClean]
  | .bool b => by simp [sanitize, preservesClean]
  | .num n => by simp [sanitize, preservesClean]
  | .str s => by simp [sanitize, preservesClean]
  | .arr xs => by
    simp [sanitize, preservesClean, sanitizeList_preservesClean xs]
  | .obj fs => by
    simp [sanitize, preservesClean, sanitizeFields_preservesClean fs]

theorem sanitizeList_preservesClean :
    ∀ xs, preservesCleanList xs (sanitizeList xs) = true
  | .nil => rfl
  | .cons x xs => by
    simp [sanitizeList, preservesCleanList, sanitize_preservesClean x,
      sanitizeList_preservesClean xs]

theorem sanitizeFields_preservesClean :
    ∀ fs, preservesCleanFields fs (sanitizeFields fs) = true
  | .nil => rfl
  | .cons k v fs => by
    cases hk : isSensitiveKey k with
    | true =>
      simp [sanitizeFields, preservesCleanFields, hk,
        sanitizeFields_preservesClean fs]
    | false =>
      cases hv : noSensitive v with
      | true =>
        simp [sanitizeFields, preservesCleanFields, hk, hv, sanitize_id v hv,
          sanitizeFields_preservesClean fs]
      | false =>
        simp [sanitizeFields, preservesCleanFields, hk, hv,
          sanitize_preservesClean v, sanitizeFields_preservesClean fs]

end

/-- C6: sanitization redacts every field whose lower-cased key is in the
fixed sensitive set, at any nesting depth including inside arrays
(`allRedacted` holds of every sanitized value); every other field passes
through byte-identical — keys and structure are preserved and every
non-sensitive field whose value contains no sensitive key is returned
unchanged, even alongside redacted siblings (`preservesClean`); and an input
containing no sensitive key anywhere is returned identical. -/
theorem sanitize_redacts_and_preserves (v : Jval) :
    allRedacted (sanitize v) = true ∧
    preservesClean v (sanitize v) = true ∧
    (noSensitive v = true → sanitize v = v) :=
  ⟨sanitize_allRedacted v, sanitize_preservesClean v, sanitize_id v⟩

/-- The tool-argument payload of the spec's scenario:
`{"q":"x","token":"abc"}`. -/
def scenarioArgs : Jval :=
  Jval.obj (.cons "q" (Jval.str "x")
    (.cons "token" (Jval.str "abc") .nil))

/-- A payload with no sensitive keys anywhere. -/
def cleanArgs : Jval :=
  Jval.obj (.cons "q" (Jval.str "x")
    (.cons "nested" (Jval.obj (.cons "a" (Jval.num 1) .nil)) .nil))

/-- Closed instantiation of `sanitize_redacts_and_preserves`: a clean nested
payload passes through unchanged, and on the spec's mixed scenario
`{"q":"x","token":"abc"}` the output redacts `token`, preserves `q`
byte-identical, and equals exactly `{"q":"x","token":"<redacted>"}`. -/
theorem sanitize_redacts_and_preserves_witness :
    noSensitive cleanArgs = true ∧
    sanitize cleanArgs = cleanArgs ∧
    allRedacted (sanitize scenarioArgs) = true ∧
    preservesClean scenarioArgs (sanitize scenarioArgs) = true ∧
    sanitize scenarioArgs
      = Jval.obj (.cons "q" (Jval.str "x")
          (.cons "token" (Jval.str redactedMarker) .nil)) :=
  ⟨by decide,
   (sanitize_redacts_and_preserves cleanArgs).2.2 (by decide),
   (sanitize_redacts_and_preserves scenarioArgs).1,
   (sanitize_redacts_and_preserves scenarioArgs).2.1,
   by decide⟩

/-! ### `truncate` (`src/copilot/mcp-hooks.ts`) -/

/-- The fixed size ceiling `MAX_DATA_SIZE` (serialized characters). -/
def MAX_DATA_SIZE : Nat := 100000

/-- Lower-case hex digit for a value below 16. -/
def hexDigit (n : Nat) : Char :=
  if n < 10 then Char.ofNat (48 + n) else Char.ofNat (87 + n)

/-- JSON string escaping of one character (`JSON.stringify` rules for the
ASCII payloads modelled here). -/
def escChar (c : Char) : List Char :=
  if c = '"' then ['\\', '"']
  else if c = '\\' then ['\\', '\\']
  else if c = '\n' then ['\\', 'n']
  else if c = '\r' then ['\\', 'r']
  else if c = '\t' then ['\\', 't']
  else if c.toNat = 8 then ['\\', 'b']
  else if c.toNat = 12 then ['\\', 'f']
  else if c.toNat < 32 then
    ['\\', 'u', '0', '0', hexDigit (c.toNat / 16), hexDigit (c.toNat % 16)]
  else [c]

def escChars : List Char → List Char
  | [] => []
  | c :: cs => escChar c ++ escChars cs

/-- `JSON.stringify` of a string value. -/
def jsonOfString (s : String) : String :=
  String.mk ('"' :: (escChars s.data ++ ['"']))

mutual

/-- `JSON.stringify` on the modelled values (numbers are integers, so their
JS rendering is plain decimal). -/
def stringify : Jval → String
  | .null => "null"
  | .bool b => if b then "true" else "false"
  | .num n => toString n
  | .str s => jsonOfString s
  | .arr xs => "[" ++ stringifyItems xs ++ "]"
  | .obj fs => "\x7b" ++ stringifyPairs fs ++ "\x7d"

def stringifyItems : JvalList → String
  | .nil => ""
  | .cons x .nil => stringify x
  | .cons x xs => stringify x ++ "," ++ stringifyItems xs

def stringifyPairs : JvalFields → String
  | .nil => ""
  | .cons k v .nil => jsonOfString k ++ ":" ++ stringify v
  | .cons k v fs => jsonOfString k ++ ":" ++ stringify v ++ "," ++ stringifyPairs fs

end

/-- `safeJson` from the source.  On the modelled inductive values
`JSON.stringify` cannot throw (no circular references), so the
`'"<unserializable>"'` catch branch is unreachable here. -/
def safeJson (v : Jval) : String := stringify v

/-- JS `s.substring(0, n)`. -/
def jsSubstring (s : String) (n : Nat) : String :=
  String.mk (s.data.take n)

/-- The second half of `truncate`: serialize, and when the serialized size
exceeds the ceiling replace the payload with the marker object
`{_truncated, _original_size, preview}`. -/
def truncateBySize (data : Jval) : Jval :=
  let json := safeJson data
  if MAX_DATA_SIZE < json.length then
    Jval.obj (.cons "_truncated" (Jval.bool true)
      (.cons "_original_size" (Jval.num (json.length : Int))
        (.cons "preview" (Jval.str (jsSubstring json MAX_DATA_SIZE)) .nil)))
  else data

/-- `truncate` from the source: a string longer than the ceiling is cut to
its first `MAX_DATA_SIZE` characters plus a textual suffix; any other
oversized payload becomes the marker object. -/
def truncate (data : Jval) : Jval :=
  match data with
  | .str s =>
    if MAX_DATA_SIZE < s.length then
      .str (jsSubstring s MAX_DATA_SIZE ++ "... [truncated, total "
        ++ toString s.length ++ " chars]")
    else truncateBySize (.str s)
  | v => truncateBySize v

/-- Is the value a JSON object? -/
def isObjB : Jval → Bool
  | .obj _ => true
  | _ => false

/-- Is the value a string strictly longer than the ceiling (the payloads the
first branch of `truncate` intercepts)? -/
def isLongStr : Jval → Bool
  | .str s => decide (MAX_DATA_SIZE < s.length)
  | _ => false

/-- A string of 100001 `a` characters — one character over the ceiling. -/
def bigStr : String := String.mk (List.replicate 100001 'a')

theorem escChars_replicate_a (n : Nat) :
    escChars (List.replicate n 'a') = List.replicate n 'a' := by
  induction n with
  | zero => rfl
  | succ n ih =>
    have ha : escChar 'a' = ['a'] := by decide
    simp [List.replicate, escChars, ha, ih]

theorem bigStr_length : bigStr.length = 100001 := by
  show (List.replicate 100001 'a').length = 100001
  exact List.length_replicate _ _

theorem safeJson_str_bigStr_length : (safeJson (Jval.str bigStr)).length = 100003 := by
  show ('"' :: (escChars bigStr.data ++ ['"'])).length = 100003
  have hdata : bigStr.data = List.replicate 100001 'a' := rfl
  rw [hdata, escChars_replicate_a, List.length_cons, List.length_append,
    List.length_replicate]
  rfl

/-- C5 counterexample: the payload `Jval.str bigStr` exceeds the ceiling
both as a raw string (100001 chars) and serialized (100003 chars), yet
`truncate` does NOT replace it with the `{truncated, originalSize, preview}`
marker object — it returns a truncated string. -/
theorem truncate_long_string_not_marker :
    MAX_DATA_SIZE < bigStr.length ∧
    MAX_DATA_SIZE < (safeJson (Jval.str bigStr)).length ∧
    isObjB (truncate (Jval.str bigStr)) = false := by
  have hlen : MAX_DATA_SIZE < bigStr.length := by
    rw [bigStr_length]; norm_num [MAX_DATA_SIZE]
  refine ⟨hlen, ?_, ?_⟩
  · rw [safeJson_str_bigStr_length]; norm_num [MAX_DATA_SIZE]
  · simp only [truncate, hlen, if_true]
    rfl

/-- C5 as amended: `truncate` leaves a payload unchanged when it is not an
over-ceiling string and its serialized size is at most the ceiling; replaces
any other payload whose serialized size exceeds the ceiling with the marker
object `{_truncated:true, _original_size, preview}` whose preview is at most
the ceiling; and cuts a string longer than the ceiling to its first
`MAX_DATA_SIZE` characters plus a fixed suffix (not the marker object). -/
theorem truncate_spec (v : Jval) :
    (isLongStr v = false → (safeJson v).length ≤ MAX_DATA_SIZE → truncate v = v) ∧
    (isLongStr v = false → MAX_DATA_SIZE < (safeJson v).length →
      truncate v = Jval.obj (.cons "_truncated" (Jval.bool true)
        (.cons "_original_size" (Jval.num ((safeJson v).length : Int))
          (.cons "preview" (Jval.str (jsSubstring (safeJson v) MAX_DATA_SIZE)) .nil))) ∧
      (jsSubstring (safeJson v) MAX_DATA_SIZE).length ≤ MAX_DATA_SIZE) ∧
    (∀ s, v = Jval.str s → MAX_DATA_SIZE < s.length →
      truncate v = Jval.str (jsSubstring s MAX_DATA_SIZE ++ "... [truncated, total "
        ++ toString s.length ++ " chars]")) := by
  have hprev : ∀ t : String, (jsSubstring t MAX_DATA_SIZE).length ≤ MAX_DATA_SIZE := by
    intro t
    show (t.data.take MAX_DATA_SIZE).length ≤ MAX_DATA_SIZE
    simp [List.length_take]
  refine ⟨?_, ?_, ?_⟩
  · intro hls hle
    cases v with
    | str s =>
      simp only [isLongStr, decide_eq_false_iff_not] at hls
      simp only [truncate, hls, if_false, truncateBySize]
      rw [if_neg (by omega)]
    | null => simp only [truncate, truncateBySize]; rw [if_neg (by omega)]
    | bool b => simp only [truncate, truncateBySize]; rw [if_neg (by omega)]
    | num n => simp only [truncate, truncateBySize]; rw [if_neg (by omega)]
    | arr xs => simp only [truncate, truncateBySize]; rw [if_neg (by omega)]
    | obj fs => simp only [truncate, truncateBySize]; rw [if_neg (by omega)]
  · intro hls hgt
    cases v with
    | str s =>
      simp only [isLongStr, decide_eq_false_iff_not] at hls
      simp only [truncate, hls, if_false, truncateBySize]
      rw [if_pos hgt]
      exact ⟨rfl, hprev _⟩
    | null =>
      simp only [truncate, truncateBySize]; rw [if_pos hgt]; exact ⟨rfl, hprev _⟩
    | bool b =>
      simp only [truncate, truncateBySize]; rw [if_pos hgt]; exact ⟨rfl, hprev _⟩
    | num n =>
      simp only [truncate, truncateBySize]; rw [if_pos hgt]; exact ⟨rfl, hprev _⟩
    | arr xs =>
      simp only [truncate, truncateBySize]; rw [if_pos hgt]; exact ⟨rfl, hprev _⟩
    | obj fs =>
      simp only [truncate, truncateBySize]; rw [if_pos hgt]; exact ⟨rfl, hprev _⟩
  · intro s hv hgt
    subst hv
    simp only [truncate, hgt, if_true]

theorem safeJson_arr_bigStr_length :
    (safeJson (Jval.arr (.cons (Jval.str bigStr) .nil))).length = 100005 := by
  show ("[" ++ jsonOfString bigStr ++ "]").length = 100005
  rw [String.length_append, String.length_append]
  have : (jsonOfString bigStr).length = 100003 := safeJson_str_bigStr_length
  rw [this]
  rfl

/-- Closed instantiation of `truncate_spec`: a small string passes through
unchanged; an array wrapping `bigStr` (serialized size 100005) becomes the
marker object with a bounded preview; `bigStr` itself is cut to 100000
characters plus the fixed suffix. -/
theorem truncate_spec_witness :
    truncate (Jval.str "x") = Jval.str "x" ∧
    (truncate (Jval.arr (.cons (Jval.str bigStr) .nil))
        = Jval.obj (.cons "_truncated" (Jval.bool true)
            (.cons "_original_size"
              (Jval.num ((safeJson (Jval.arr (.cons (Jval.str bigStr) .nil))).length : Int))
              (.cons "preview"
                (Jval.str (jsSubstring (safeJson (Jval.arr (.cons (Jval.str bigStr) .nil)))
                  MAX_DATA_SIZE)) .nil))) ∧
      (jsSubstring (safeJson (Jval.arr (.cons (Jval.str bigStr) .nil)))
          MAX_DATA_SIZE).length ≤ MAX_DATA_SIZE) ∧
    truncate (Jval.str bigStr)
      = Jval.str (jsSubstring bigStr MAX_DATA_SIZE ++ "... [truncated, total "
          ++ toString bigStr.length ++ " chars]") :=
  ⟨(truncate_spec (Jval.str "x")).1 (by decide) (by decide),
   (truncate_spec (Jval.arr (.cons (Jval.str bigStr) .nil))).2.1 rfl
     (by rw [safeJson_arr_bigStr_length]; norm_num [MAX_DATA_SIZE]),
   (truncate_spec (Jval.str bigStr)).2.2 bigStr rfl
     (by rw [bigStr_length]; norm_num [MAX_DATA_SIZE])⟩

/-! ## Prompt extraction (`CopilotExecutor.extractText` in
`src/copilot/executor.ts`) -/

/-- A2A message parts.  Only the `text` kind carries prompt text; `file` and
`data` stand for the non-text part kinds. -/
inductive MsgPart where
  | text (s : String)
  | file (uri : String)
  | data (payload : String)
deriving Repr, DecidableEq

/-- `p.kind === "text"`. -/
def partIsText : MsgPart → Bool
  | .text _ => true
  | _ => false

/-- The `.text` payload of a (text) part. -/
def partText : MsgPart → String
  | .text s => s
  | _ => ""

/-- JS `Array.prototype.join(sep)`. -/
def joinSep (sep : String) : List String → String
  | [] => ""
  | [x] => x
  | x :: xs => x ++ sep ++ joinSep sep xs

/-- `CopilotExecutor.extractText`: filter the text-typed parts, take their
text, and `join("\n")`. -/
def extractText (parts : List MsgPart) : String :=
  joinSep "\n" ((parts.filter partIsText).map partText)

/-- The text of a part, when it is text-typed. -/
def textOf : MsgPart → Option String
  | .text s => some s
  | _ => none

theorem intercalate_go_eq_joinSep (sep : String) :
    ∀ (xs : List String) (acc : String),
      String.intercalate.go acc sep xs = joinSep sep (acc :: xs) := by
  intro xs
  induction xs with
  | nil => intro acc; rfl
  | cons y ys ih =>
    intro acc
    show String.intercalate.go (acc ++ sep ++ y) sep ys = joinSep sep (acc :: y :: ys)
    rw [ih (acc ++ sep ++ y)]
    cases ys with
    | nil => simp [joinSep]
    | cons z zs => simp [joinSep, String.append_assoc]

theorem joinSep_eq_intercalate (sep : String) (l : List String) :
    joinSep sep l = String.intercalate sep l := by
  cases l with
  | nil => rfl
  | cons x xs =>
    show joinSep sep (x :: xs) = String.intercalate.go x sep xs
    rw [intercalate_go_eq_joinSep sep xs x]

theorem filter_map_eq_filterMap_textOf (parts : List MsgPart) :
    (parts.filter partIsText).map partText = parts.filterMap textOf := by
  induction parts with
  | nil => rfl
  | cons p ps ih =>
    cases p with
    | text s => simp [partIsText, partText, textOf, ih]
    | file u => simp [partIsText, textOf, ih]
    | data d => simp [partIsText, textOf, ih]

/-- C9 counterexample: a message with two text parts "a" and "b" yields the
prompt with a newline separator between them, not the plain concatenation
"ab". -/
theorem extractText_not_plain_concat :
    extractText [MsgPart.text "a", MsgPart.text "b"] = "a\nb" ∧
    extractText [MsgPart.text "a", MsgPart.text "b"] ≠ "ab" := by
  constructor
  · rfl
  · decide

/-- C9 as amended: the prompt dispatched to the session is the message's
text-typed parts, in their original order, joined with a newline separator
("\n" between consecutive text parts); non-text parts contribute nothing. -/
theorem extractText_joins_text_parts (parts : List MsgPart) :
    extractText parts = String.intercalate "\n" (parts.filterMap textOf) := by
  unfold extractText
  rw [filter_map_eq_filterMap_textOf, joinSep_eq_intercalate]

/-! ## Task bridge (`CopilotExecutor.execute` in `src/copilot/executor.ts`)

The bridge's observable behaviour is the ordered list of `Action`s it
performs: events published on the A2A bus, `finished()`, the task-tracking
calls on the session manager, and the evidence-recorder context calls.  The
session's asynchronous event stream is the list of events delivered before
the wall-clock deadline; if none of them settles the completion deferred,
the timeout timer fires (the end of the list). -/

/-- A2A task states used by the bridge. -/
inductive TaskState where
  | submitted
  | working
  | completed
  | failed
  | canceled
deriving Repr, DecidableEq

/-- One observable action of the bridge, in order.  Artifact ids (fresh
UUIDs) are not modelled; artifacts carry their `name` and text. -/
inductive Action where
  | publishTask (taskId contextId : String)
  | publishStatus (taskId contextId : String) (state : TaskState)
      (message : Option String) (final : Bool)
  | publishArtifact (taskId contextId : String) (append lastChunk : Bool)
      (name text : String)
  | publishTrace (taskId contextId : String) (key text : String)
  | finished
  | trackTask (taskId sessionId : String)
  | untrackTask (taskId : String)
  | clearHooksContext
  | setHooksContext (taskId contextId : String)
deriving Repr, DecidableEq

/-- The session events `execute` subscribes to in streaming mode, with the
source's `??` defaults already applied to the string payloads
(`assistant.reasoning`'s `content` keeps its nullish case as `Option`, since
the source falls back to the accumulator only when it is nullish).
`sendFailed` is the rejection of the `send()` call itself. -/
inductive SEvent where
  | messageDelta (deltaContent : String)
  | message (content : String)
  | reasoningDelta (deltaContent : String)
  | reasoningDone (content : Option String)
  | intent (s : String)
  | toolStart (toolName : String)
  | toolProgress (progressMessage : String)
  | toolComplete (success : Bool) (errMsg : String)
  | subagentStarted (name : String)
  | subagentCompleted (name : String)
  | subagentFailed (name : String) (err : String)
  | sessionError (msg : String)
  | sessionIdle
  | sendFailed (msg : String)
deriving Repr, DecidableEq

/-- Mutable state of the streaming listeners. -/
structure StreamState where
  accumulated : String
  reasoningAcc : String
  timedOut : Bool
  published : List Action
deriving Repr, DecidableEq

/-- How the completion deferred settles. -/
inductive Settle where
  | resolved
  | rejected (msg : String)
deriving Repr, DecidableEq

/-- `msg.toLowerCase().includes("timeout")`. -/
def containsTimeout (msg : String) : Bool :=
  includesSub (jsToLower msg) "timeout"

/-- Append one published action. -/
def pushA (st : StreamState) (a : Action) : StreamState :=
  { st with published := st.published ++ [a] }

/-- One streaming event handler step: either the updated listener state, or
the state together with how the completion deferred settles. -/
def stepEvent (chunking : Bool) (taskId contextId : String)
    (st : StreamState) : SEvent → StreamState ⊕ (StreamState × Settle)
  | .messageDelta d =>
    if d ≠ "" then
      let st' := { st with accumulated := st.accumulated ++ d }
      if chunking then
        .inl (pushA st' (.publishArtifact taskId contextId true false "response" d))
      else .inl st'
    else .inl st
  | .message c =>
    if c ≠ "" ∧ st.accumulated = "" then .inl { st with accumulated := c }
    else .inl st
  | .reasoningDelta d =>
    if d ≠ "" then .inl { st with reasoningAcc := st.reasoningAcc ++ d }
    else .inl st
  | .reasoningDone c =>
    let content := c.getD st.reasoningAcc
    if content ≠ "" then
      .inl { pushA st (.publishTrace taskId contextId "trace.thought" content)
              with reasoningAcc := "" }
    else .inl st
  | .intent s =>
    if s ≠ "" then
      .inl (pushA st (.publishStatus taskId contextId .working
        (some ("Intent: " ++ s)) false))
    else .inl st
  | .toolStart name =>
    .inl (pushA st (.publishStatus taskId contextId .working
      (some ("Executing " ++ name ++ "...")) false))
  | .toolProgress m =>
    if m ≠ "" then
      .inl (pushA st (.publishStatus taskId contextId .working (some m) false))
    else .inl st
  | .toolComplete success err =>
    if success then
      .inl (pushA st (.publishStatus taskId contextId .working
        (some "Tool completed") false))
    else
      .inl (pushA st (.publishStatus taskId contextId .working
        (some ("Tool error: " ++ err)) false))
  | .subagentStarted n =>
    .inl (pushA st (.publishStatus taskId contextId .working
      (some ("Delegating to " ++ n ++ "...")) false))
  | .subagentCompleted n =>
    .inl (pushA st (.publishStatus taskId contextId .working
      (some (n ++ " completed")) false))
  | .subagentFailed n e =>
    .inl (pushA st (.publishStatus taskId contextId .working
      (some (n ++ " failed: " ++ e)) false))
  | .sessionError m =>
    if containsTimeout m then .inr ({ st with timedOut := true }, .resolved)
    else .inr (st, .rejected m)
  | .sessionIdle => .inr (st, .resolved)
  | .sendFailed m =>
    if containsTimeout m then .inr ({ st with timedOut := true }, .resolved)
    else .inr (st, .rejected m)

/-- Deliver events in order until one settles the deferred (or the list is
exhausted). -/
def procEvents (chunking : Bool) (taskId contextId : String) :
    List SEvent → StreamState → StreamState × Option Settle
  | [], st => (st, none)
  | e :: es, st =>
    match stepEvent chunking taskId contextId st e with
    | .inl st' => procEvents chunking taskId contextId es st'
    | .inr (st', s) => (st', some s)

/-- Initial listener state. -/
def initStream : StreamState := ⟨"", "", false, []⟩

/-- The full streaming phase: if no delivered event settled the deferred,
the wall-clock timer fires — `timedOut := true` and a graceful resolve. -/
def runStream (chunking : Bool) (taskId contextId : String)
    (events : List SEvent) : StreamState × Settle :=
  match procEvents chunking taskId contextId events initStream with
  | (st, none) => ({ st with timedOut := true }, .resolved)
  | (st, some s) => (st, s)

/-- The note appended when a timeout left partial content. -/
def timeoutNote : String :=
  "\n\n---\n*Response truncated: processing time limit reached.*"

/-- Fallback text when a timeout produced nothing. -/
def timeoutFallback : String :=
  "The request timed out before a response was produced."

/-- Fallback text when the session returned nothing (no timeout). -/
def emptyFallback : String := "No text response was returned."

/-- The result text of a resolved streaming phase (executor lines 397-425):
append the truncation note when a timeout left partial content, then fall
back to a fixed placeholder when nothing accumulated. -/
def streamText (st : StreamState) : String :=
  let acc :=
    if st.timedOut ∧ st.accumulated ≠ "" then st.accumulated ++ timeoutNote
    else st.accumulated
  if acc = "" then (if st.timedOut then timeoutFallback else emptyFallback)
  else acc

/-- Step 6 of `execute`: publish the result as one buffered artifact, or as
the final append-marked last chunk when chunking is enabled, then terminal
Completed, then `finished()`. -/
def finalize (chunking : Bool) (taskId contextId : String) (text : String) :
    List Action :=
  (if chunking then
    [Action.publishArtifact taskId contextId true true "response" text]
   else
    [Action.publishArtifact taskId contextId false true "response" text])
  ++ [Action.publishStatus taskId contextId .completed none true,
      Action.finished]

/-- The configuration slice `execute` reads: `config.copilot.streaming`,
`config.features.streamArtifactChunks`, and `config.copilot.cliUrl` (the
empty string models an unset cliUrl, falsy in JS). -/
structure ExecConfig where
  streaming : Bool
  streamArtifactChunks : Bool
  cliUrl : String
deriving Repr, DecidableEq

/-- One execution's inputs: the request context plus the behaviour of the
external collaborators (session acquisition, the streaming event feed, and
the buffered `sendAndWait` outcome raced against the timer). -/
structure ExecInput where
  taskId : String
  contextId : String
  hasTaskRecord : Bool
  parts : List MsgPart
  acquire : Except String String
  events : List SEvent
  bufferedOutcome : Except String String

/-- The try-block of `execute`: the actions it performs, and the error it
throws into the catch block, if any. -/
def executeTry (cfg : ExecConfig) (inp : ExecInput) : List Action × Option String :=
  let pre :=
    (if inp.hasTaskRecord then [] else [Action.publishTask inp.taskId inp.contextId])
    ++ [Action.publishStatus inp.taskId inp.contextId .working
          (some "Processing request...") false]
  match inp.acquire with
  | .error m => (pre, some m)
  | .ok sid =>
    let pre2 := pre ++ [Action.trackTask inp.taskId sid]
    if cfg.streaming then
      match runStream cfg.streamArtifactChunks inp.taskId inp.contextId inp.events with
      | (st, .rejected m) => (pre2 ++ st.published, some m)
      | (st, .resolved) =>
        (pre2 ++ st.published
          ++ finalize cfg.streamArtifactChunks inp.taskId inp.contextId (streamText st),
         none)
    else
      match inp.bufferedOutcome with
      | .ok content =>
        let accF := if content = "" then emptyFallback else content
        (pre2 ++ finalize cfg.streamArtifactChunks inp.taskId inp.contextId accF, none)
      | .error m =>
        if includesSub m "timeout" then
          (pre2 ++ finalize cfg.streamArtifactChunks inp.taskId inp.contextId emptyFallback,
           none)
        else (pre2, some m)

/-- The user message of the catch block: the "server unreachable" text for
connection-pattern errors when an external cliUrl is configured, otherwise a
generic error message. -/
def connUserMsg (cfg : ExecConfig) (m : String) : String :=
  if (includesSub m "ECONNREFUSED" || includesSub m "ENOTFOUND"
      || includesSub m "connect" || includesSub m "socket") ∧ cfg.cliUrl ≠ "" then
    "Cannot reach GitHub Copilot CLI server at " ++ cfg.cliUrl ++ ". Is it running?"
  else "Error: " ++ m

/-- The catch block of `execute`: classify connection errors, build the user
message, publish terminal Failed, `finished()`. -/
def catchActions (cfg : ExecConfig) (taskId contextId : String) (m : String) :
    List Action :=
  [Action.publishStatus taskId contextId .failed (some (connUserMsg cfg m)) true,
   Action.finished]

/-- `CopilotExecutor.execute`: bind the evidence-recorder context, run the
try block, convert a thrown error into terminal Failed, and in the finally
block untrack the task and clear the recorder context. -/
def execute (cfg : ExecConfig) (inp : ExecInput) : List Action :=
  Action.setHooksContext inp.taskId inp.contextId ::
    ((executeTry cfg inp).1
      ++ (match (executeTry cfg inp).2 with
          | none => []
          | some m => catchActions cfg inp.taskId inp.contextId m))
    ++ [Action.untrackTask inp.taskId, Action.clearHooksContext]

/-- `CopilotExecutor.cancelTask`: advisory only — terminal Canceled (with an
empty contextId, as in the source) and `finished()`; it does not abort the
running `execute`, whose finally block still performs the cleanup. -/
def cancelTask (taskId : String) : List Action :=
  [Action.publishStatus taskId "" .canceled none true, Action.finished]

/-- The `(state, message)` of every final (terminal) status-update. -/
def finalStatuses (acts : List Action) : List (TaskState × Option String) :=
  acts.filterMap fun a =>
    match a with
    | .publishStatus _ _ s m true => some (s, m)
    | _ => none

/-- The `(append, name, text)` of every lastChunk artifact-update. -/
def finalArtifacts (acts : List Action) : List (Bool × String × String) :=
  acts.filterMap fun a =>
    match a with
    | .publishArtifact _ _ app true nm tx => some (app, nm, tx)
    | _ => none

/-- Events that settle the completion deferred: `session.idle`,
`session.error`, and a rejection of the `send()` call. -/
def isSettling : SEvent → Bool
  | .sessionError _ => true
  | .sessionIdle => true
  | .sendFailed _ => true
  | _ => false

/-- Actions a streaming event handler may publish: intermediate working
statuses, non-final streaming chunks, and trace artifacts. -/
def isIntermediate : Action → Bool
  | .publishStatus _ _ .working _ false => true
  | .publishArtifact _ _ _ false _ _ => true
  | .publishTrace _ _ _ _ => true
  | _ => false

/-! ### Stream-machinery lemmas -/

theorem stepEvent_inl_of_nonsettling (chunking : Bool) (tid cid : String)
    (st : StreamState) (e : SEvent) (h : isSettling e = false) :
    ∃ st', stepEvent chunking tid cid st e = .inl st' := by
  cases e <;>
    first
      | (simp only [stepEvent]
         repeat' split
         all_goals exact ⟨_, rfl⟩)
      | simp [isSettling] at h

theorem procEvents_no_settle (chunking : Bool) (tid cid : String) :
    ∀ (events : List SEvent) (st : StreamState),
      (∀ e ∈ events, isSettling e = false) →
      (procEvents chunking tid cid events st).2 = none := by
  intro events
  induction events with
  | nil => intro st _; rfl
  | cons e es ih =>
    intro st h
    obtain ⟨st', hst⟩ :=
      stepEvent_inl_of_nonsettling chunking tid cid st e (h e (by simp))
    simp only [procEvents, hst]
    exact ih st' (fun x hx => h x (by simp [hx]))

theorem runStream_no_settle (chunking : Bool) (tid cid : String)
    (events : List SEvent) (h : ∀ e ∈ events, isSettling e = false) :
    runStream chunking tid cid events =
      ({ (procEvents chunking tid cid events initStream).1 with timedOut := true },
       Settle.resolved) := by
  unfold runStream
  have h2 := procEvents_no_settle chunking tid cid events initStream h
  rcases hpe : procEvents chunking tid cid events initStream with ⟨st, os⟩
  rw [hpe] at h2
  simp only at h2
  subst h2
  simp

theorem procEvents_append_settling (chunking : Bool) (tid cid : String) :
    ∀ (pre : List SEvent) (rest : List SEvent) (ev : SEvent) (st : StreamState),
      (∀ e ∈ pre, isSettling e = false) →
      procEvents chunking tid cid (pre ++ ev :: rest) st =
        (match stepEvent chunking tid cid (procEvents chunking tid cid pre st).1 ev with
         | .inl st' => procEvents chunking tid cid rest st'
         | .inr (st', s) => (st', some s)) := by
  intro pre
  induction pre with
  | nil => intro rest ev st _; rfl
  | cons e es ih =>
    intro rest ev st h
    obtain ⟨st1, hst⟩ :=
      stepEvent_inl_of_nonsettling chunking tid cid st e (h e (by simp))
    show procEvents chunking tid cid (e :: (es ++ ev :: rest)) st = _
    simp only [procEvents, hst]
    exact ih rest ev st1 (fun x hx => h x (by simp [hx]))

theorem stepEvent_inl_intermediate (chunking : Bool) (tid cid : String)
    (st : StreamState) (e : SEvent) (st' : StreamState)
    (hst : stepEvent chunking tid cid st e = .inl st')
    (h : ∀ a ∈ st.published, isIntermediate a = true) :
    ∀ a ∈ st'.published, isIntermediate a = true := by
  cases e <;>
    (simp only [stepEvent] at hst
     repeat' split at hst) <;>
    first
      | (injection hst with h'
         subst h'
         first
           | exact h
           | (intro a ha
              rcases List.mem_append.mp ha with ha | ha
              · exact h a ha
              · rw [List.mem_singleton.mp ha]; rfl))
      | cases hst

theorem stepEvent_inr_published (chunking : Bool) (tid cid : String)
    (st : StreamState) (e : SEvent) (st' : StreamState) (s : Settle)
    (hst : stepEvent chunking tid cid st e = .inr (st', s)) :
    st'.published = st.published ∧ st'.accumulated = st.accumulated := by
  cases e <;>
    (simp only [stepEvent] at hst
     repeat' split at hst) <;>
    first
      | (injection hst with h'
         injection h' with h1 h2
         subst h1
         exact ⟨rfl, rfl⟩)
      | cases hst

theorem procEvents_intermediate (chunking : Bool) (tid cid : String) :
    ∀ (events : List SEvent) (st : StreamState),
      (∀ a ∈ st.published, isIntermediate a = true) →
      ∀ a ∈ (procEvents chunking tid cid events st).1.published,
        isIntermediate a = true := by
  intro events
  induction events with
  | nil => intro st h; exact h
  | cons e es ih =>
    intro st h
    rcases hst : stepEvent chunking tid cid st e with st' | ⟨st', s⟩
    · simp only [procEvents, hst]
      exact ih st' (stepEvent_inl_intermediate chunking tid cid st e st' hst h)
    · simp only [procEvents, hst]
      intro a ha
      rw [(stepEvent_inr_published chunking tid cid st e st' s hst).1] at ha
      exact h a ha

theorem runStream_intermediate (chunking : Bool) (tid cid : String)
    (events : List SEvent) :
    ∀ a ∈ (runStream chunking tid cid events).1.published,
      isIntermediate a = true := by
  unfold runStream
  have hin : ∀ a ∈ (initStream).published, isIntermediate a = true := by
    intro a ha; simp [initStream] at ha
  have hall := procEvents_intermediate chunking tid cid events initStream hin
  rcases hpe : procEvents chunking tid cid events initStream with ⟨st, os⟩
  rw [hpe] at hall
  cases os with
  | none => simpa using hall
  | some s => simpa using hall

theorem finalStatuses_append (l1 l2 : List Action) :
    finalStatuses (l1 ++ l2) = finalStatuses l1 ++ finalStatuses l2 :=
  List.filterMap_append _ _ _

theorem finalArtifacts_append (l1 l2 : List Action) :
    finalArtifacts (l1 ++ l2) = finalArtifacts l1 ++ finalArtifacts l2 :=
  List.filterMap_append _ _ _

theorem finalStatuses_nil_of_intermediate :
    ∀ l : List Action, (∀ a ∈ l, isIntermediate a = true) → finalStatuses l = []
  | [], _ => rfl
  | a :: l, h => by
    have ha := h a (by simp)
    have hrest :=
      finalStatuses_nil_of_intermediate l (fun x hx => h x (by simp [hx]))
    cases a with
    | publishStatus t c s m f =>
      cases f with
      | false => simpa [finalStatuses, List.filterMap_cons] using hrest
      | true => simp [isIntermediate] at ha
    | publishTask t c => simpa [finalStatuses, List.filterMap_cons] using hrest
    | publishArtifact t c app last nm tx =>
      simpa [finalStatuses, List.filterMap_cons] using hrest
    | publishTrace t c k tx => simpa [finalStatuses, List.filterMap_cons] using hrest
    | finished => simpa [finalStatuses, List.filterMap_cons] using hrest
    | trackTask t s => simpa [finalStatuses, List.filterMap_cons] using hrest
    | untrackTask t => simpa [finalStatuses, List.filterMap_cons] using hrest
    | clearHooksContext => simpa [finalStatuses, List.filterMap_cons] using hrest
    | setHooksContext t c => simpa [finalStatuses, List.filterMap_cons] using hrest

theorem finalArtifacts_nil_of_intermediate :
    ∀ l : List Action, (∀ a ∈ l, isIntermediate a = true) → finalArtifacts l = []
  | [], _ => rfl
  | a :: l, h => by
    have ha := h a (by simp)
    have hrest :=
      finalArtifacts_nil_of_intermediate l (fun x hx => h x (by simp [hx]))
    cases a with
    | publishArtifact t c app last nm tx =>
      cases last with
      | false => simpa [finalArtifacts, List.filterMap_cons] using hrest
      | true => simp [isIntermediate] at ha
    | publishStatus t c s m f =>
      simpa [finalArtifacts, List.filterMap_cons] using hrest
    | publishTask t c => simpa [finalArtifacts, List.filterMap_cons] using hrest
    | publishTrace t c k tx => simpa [finalArtifacts, List.filterMap_cons] using hrest
    | finished => simpa [finalArtifacts, List.filterMap_cons] using hrest
    | trackTask t s => simpa [finalArtifacts, List.filterMap_cons] using hrest
    | untrackTask t => simpa [finalArtifacts, List.filterMap_cons] using hrest
    | clearHooksContext => simpa [finalArtifacts, List.filterMap_cons] using hrest
    | setHooksContext t c => simpa [finalArtifacts, List.filterMap_cons] using hrest

/-- C7: with streaming disabled and chunking disabled, an execution on a new
context (no pre-existing task record) whose buffered call returns a
non-empty response performs exactly: bind recorder context, publish the
submitted task, publish working, track the task, publish ONE artifact-update
with append=false and lastChunk=true carrying the response text, publish ONE
status-update completed/final, signal finished, then clean up. -/
theorem execute_buffered_exact_sequence (tid cid sid resp cliUrl : String)
    (parts : List MsgPart) (events : List SEvent)
    (hresp : resp ≠ "") :
    execute ⟨false, false, cliUrl⟩ ⟨tid, cid, false, parts, .ok sid, events, .ok resp⟩ =
      [Action.setHooksContext tid cid,
       Action.publishTask tid cid,
       Action.publishStatus tid cid .working (some "Processing request...") false,
       Action.trackTask tid sid,
       Action.publishArtifact tid cid false true "response" resp,
       Action.publishStatus tid cid .completed none true,
       Action.finished,
       Action.untrackTask tid,
       Action.clearHooksContext] := by
  simp [execute, executeTry, finalize, hresp]

/-- Closed instantiation of `execute_buffered_exact_sequence` on the spec's
scenario: prompt "P" on fresh context "ctx-1". -/
theorem execute_buffered_exact_sequence_witness :
    execute ⟨false, false, ""⟩
        ⟨"task-1", "ctx-1", false, [MsgPart.text "P"], .ok "s1", [], .ok "answer"⟩ =
      [Action.setHooksContext "task-1" "ctx-1",
       Action.publishTask "task-1" "ctx-1",
       Action.publishStatus "task-1" "ctx-1" .working
         (some "Processing request...") false,
       Action.trackTask "task-1" "s1",
       Action.publishArtifact "task-1" "ctx-1" false true "response" "answer",
       Action.publishStatus "task-1" "ctx-1" .completed none true,
       Action.finished,
       Action.untrackTask "task-1",
       Action.clearHooksContext] :=
  execute_buffered_exact_sequence "task-1" "ctx-1" "s1" "answer" ""
    [MsgPart.text "P"] [] (by decide)

/-! ### String non-emptiness helpers -/

theorem append_ne_empty_right (s t : String) (ht : t ≠ "") : s ++ t ≠ "" := by
  intro h
  apply ht
  have hd : s.data ++ t.data = ([] : List Char) := congrArg String.data h
  have h2 : t.data = [] := (List.append_eq_nil.mp hd).2
  cases t with
  | mk d => rw [show d = [] from h2]

theorem append_ne_empty_left (s t : String) (hs : s ≠ "") : s ++ t ≠ "" := by
  intro h
  apply hs
  have hd : s.data ++ t.data = ([] : List Char) := congrArg String.data h
  have h2 : s.data = [] := (List.append_eq_nil.mp hd).1
  cases s with
  | mk d => rw [show d = [] from h2]

theorem connUserMsg_ne_empty (cfg : ExecConfig) (m : String) :
    connUserMsg cfg m ≠ "" := by
  unfold connUserMsg
  split
  · exact append_ne_empty_right _ _ (by decide)
  · exact append_ne_empty_left _ _ (by decide)

/-! ### Shape of `execute` in the streaming branches -/

theorem execute_streaming_resolved (cfg : ExecConfig) (inp : ExecInput)
    (sid : String) (st : StreamState)
    (hstream : cfg.streaming = true)
    (hacq : inp.acquire = .ok sid)
    (hrun : runStream cfg.streamArtifactChunks inp.taskId inp.contextId inp.events
      = (st, .resolved)) :
    execute cfg inp =
      Action.setHooksContext inp.taskId inp.contextId ::
        ((((if inp.hasTaskRecord then ([] : List Action)
              else [Action.publishTask inp.taskId inp.contextId])
            ++ [Action.publishStatus inp.taskId inp.contextId .working
                  (some "Processing request...") false]
            ++ [Action.trackTask inp.taskId sid]
            ++ st.published
            ++ finalize cfg.streamArtifactChunks inp.taskId inp.contextId (streamText st))
           ++ [])
          ++ [Action.untrackTask inp.taskId, Action.clearHooksContext]) := by
  simp [execute, executeTry, hacq, hstream, hrun]

theorem execute_streaming_rejected (cfg : ExecConfig) (inp : ExecInput)
    (sid m : String) (st : StreamState)
    (hstream : cfg.streaming = true)
    (hacq : inp.acquire = .ok sid)
    (hrun : runStream cfg.streamArtifactChunks inp.taskId inp.contextId inp.events
      = (st, .rejected m)) :
    execute cfg inp =
      Action.setHooksContext inp.taskId inp.contextId ::
        ((((if inp.hasTaskRecord then ([] : List Action)
              else [Action.publishTask inp.taskId inp.contextId])
            ++ [Action.publishStatus inp.taskId inp.contextId .working
                  (some "Processing request...") false]
            ++ [Action.trackTask inp.taskId sid]
            ++ st.published)
           ++ catchActions cfg inp.taskId inp.contextId m)
          ++ [Action.untrackTask inp.taskId, Action.clearHooksContext]) := by
  simp [execute, executeTry, hacq, hstream, hrun]

theorem runStream_error_timeout (chunking : Bool) (tid cid : String)
    (pre rest : List SEvent) (m : String)
    (hpre : ∀ e ∈ pre, isSettling e = false) (hct : containsTimeout m = true) :
    runStream chunking tid cid (pre ++ SEvent.sessionError m :: rest)
      = ({ (procEvents chunking tid cid pre initStream).1 with timedOut := true },
         .resolved) := by
  unfold runStream
  rw [procEvents_append_settling chunking tid cid pre rest (SEvent.sessionError m)
    initStream hpre]
  simp [stepEvent, hct]

theorem runStream_error_reject (chunking : Bool) (tid cid : String)
    (pre rest : List SEvent) (m : String)
    (hpre : ∀ e ∈ pre, isSettling e = false) (hct : containsTimeout m = false) :
    runStream chunking tid cid (pre ++ SEvent.sessionError m :: rest)
      = ((procEvents chunking tid cid pre initStream).1, .rejected m) := by
  unfold runStream
  rw [procEvents_append_settling chunking tid cid pre rest (SEvent.sessionError m)
    initStream hpre]
  simp [stepEvent, hct]

theorem finalStatuses_shape_resolved (hasTask chunking : Bool)
    (t c sid txt : String) (pub : List Action)
    (hpub : finalStatuses pub = []) :
    finalStatuses (Action.setHooksContext t c ::
      ((((if hasTask then ([] : List Action) else [Action.publishTask t c])
          ++ [Action.publishStatus t c .working (some "Processing request...") false]
          ++ [Action.trackTask t sid]
          ++ pub
          ++ finalize chunking t c txt) ++ [])
        ++ [Action.untrackTask t, Action.clearHooksContext]))
      = [(TaskState.completed, none)] := by
  simp only [finalStatuses] at hpub ⊢
  cases hasTask <;> cases chunking <;>
    simp [finalize, List.filterMap_append, List.filterMap_cons, hpub]

theorem finalArtifacts_shape_resolved (hasTask chunking : Bool)
    (t c sid txt : String) (pub : List Action)
    (hpub : finalArtifacts pub = []) :
    finalArtifacts (Action.setHooksContext t c ::
      ((((if hasTask then ([] : List Action) else [Action.publishTask t c])
          ++ [Action.publishStatus t c .working (some "Processing request...") false]
          ++ [Action.trackTask t sid]
          ++ pub
          ++ finalize chunking t c txt) ++ [])
        ++ [Action.untrackTask t, Action.clearHooksContext]))
      = [(chunking, "response", txt)] := by
  simp only [finalArtifacts] at hpub ⊢
  cases hasTask <;> cases chunking <;>
    simp [finalize, List.filterMap_append, List.filterMap_cons, hpub]

theorem finalStatuses_shape_rejected (hasTask : Bool)
    (t c sid um : String) (pub : List Action)
    (hpub : finalStatuses pub = []) :
    finalStatuses (Action.setHooksContext t c ::
      ((((if hasTask then ([] : List Action) else [Action.publishTask t c])
          ++ [Action.publishStatus t c .working (some "Processing request...") false]
          ++ [Action.trackTask t sid]
          ++ pub)
         ++ [Action.publishStatus t c .failed (some um) true, Action.finished])
        ++ [Action.untrackTask t, Action.clearHooksContext]))
      = [(TaskState.failed, some um)] := by
  simp only [finalStatuses] at hpub ⊢
  cases hasTask <;>
    simp [List.filterMap_append, List.filterMap_cons, hpub]

/-- On a timed-out state the result text is exactly the accumulated text
plus the truncation note, or the fixed timeout placeholder when nothing
accumulated. -/
theorem streamText_timedOut (P : StreamState) :
    streamText { P with timedOut := true }
      = if P.accumulated = "" then timeoutFallback
        else P.accumulated ++ timeoutNote := by
  by_cases hacc : P.accumulated = ""
  · simp [streamText, hacc]
  · have hne := append_ne_empty_left P.accumulated timeoutNote hacc
    simp [streamText, hacc, hne]

/-- C2: in streaming mode, when the session never emits `session.idle` and
never emits an error (no `session.error` and no `send()` rejection), the
completion deferred settles by resolution at the wall-clock timeout
(`timedOut = true`), the one terminal status-update published is Completed
(final=true) with no message — never Failed — and the one lastChunk artifact
published carries exactly whatever text accumulated: the accumulated text
plus the truncation note, or the fixed timeout placeholder when nothing
accumulated; no error escapes `execute`. -/
theorem streaming_timeout_graceful (cfg : ExecConfig) (tid cid sid : String)
    (hasTask : Bool) (parts : List MsgPart) (bo : Except String String)
    (events : List SEvent)
    (hstream : cfg.streaming = true)
    (hnone : ∀ e ∈ events, isSettling e = false) :
    (runStream cfg.streamArtifactChunks tid cid events).2 = Settle.resolved ∧
    (runStream cfg.streamArtifactChunks tid cid events).1.timedOut = true ∧
    finalStatuses (execute cfg ⟨tid, cid, hasTask, parts, .ok sid, events, bo⟩)
      = [(TaskState.completed, none)] ∧
    finalArtifacts (execute cfg ⟨tid, cid, hasTask, parts, .ok sid, events, bo⟩)
      = [(cfg.streamArtifactChunks, "response",
          if (procEvents cfg.streamArtifactChunks tid cid events
                initStream).1.accumulated = ""
          then timeoutFallback
          else (procEvents cfg.streamArtifactChunks tid cid events
                  initStream).1.accumulated ++ timeoutNote)] := by
  have hrun := runStream_no_settle cfg.streamArtifactChunks tid cid events hnone
  have hint : ∀ a ∈ ({ (procEvents cfg.streamArtifactChunks tid cid events initStream).1
      with timedOut := true } : StreamState).published, isIntermediate a = true := by
    have h0 := runStream_intermediate cfg.streamArtifactChunks tid cid events
    rw [hrun] at h0
    simpa using h0
  have hshape := execute_streaming_resolved cfg
    ⟨tid, cid, hasTask, parts, .ok sid, events, bo⟩ sid _ hstream rfl hrun
  have hsnil := finalStatuses_nil_of_intermediate _ hint
  have hanil := finalArtifacts_nil_of_intermediate _ hint
  refine ⟨by rw [hrun], by rw [hrun], ?_, ?_⟩
  · rw [hshape]
    exact finalStatuses_shape_resolved hasTask cfg.streamArtifactChunks tid cid sid _ _ hsnil
  · rw [hshape]
    rw [finalArtifacts_shape_resolved hasTask cfg.streamArtifactChunks tid cid sid
      (streamText { (procEvents cfg.streamArtifactChunks tid cid events initStream).1
        with timedOut := true }) _ hanil]
    rw [streamText_timedOut]

/-- Closed instantiation of `streaming_timeout_graceful`: one delta "Hi"
then silence; the run times out and completes with the accumulated "Hi"
plus the truncation note. -/
theorem streaming_timeout_graceful_witness :
    (runStream false "t1" "c1" [SEvent.messageDelta "Hi"]).2 = Settle.resolved ∧
    (runStream false "t1" "c1" [SEvent.messageDelta "Hi"]).1.timedOut = true ∧
    finalStatuses (execute ⟨true, false, ""⟩
        ⟨"t1", "c1", true, [], .ok "s1", [SEvent.messageDelta "Hi"], .ok ""⟩)
      = [(TaskState.completed, none)] ∧
    finalArtifacts (execute ⟨true, false, ""⟩
        ⟨"t1", "c1", true, [], .ok "s1", [SEvent.messageDelta "Hi"], .ok ""⟩)
      = [(false, "response",
          if (procEvents false "t1" "c1" [SEvent.messageDelta "Hi"]
                initStream).1.accumulated = ""
          then timeoutFallback
          else (procEvents false "t1" "c1" [SEvent.messageDelta "Hi"]
                  initStream).1.accumulated ++ timeoutNote)] :=
  streaming_timeout_graceful ⟨true, false, ""⟩ "t1" "c1" "s1" true [] (.ok "")
    [SEvent.messageDelta "Hi"] rfl (by decide)

/-- C1 counterexample: a `session.error` whose message "TIMEOUT" does NOT
contain the substring "timeout" (case-sensitively), yet the execution ends
in terminal Completed, not the terminal Failed the claim requires for any
session-error not containing "timeout". -/
theorem session_error_TIMEOUT_completes :
    includesSub "TIMEOUT" "timeout" = false ∧
    finalStatuses (execute ⟨true, false, ""⟩
        ⟨"t1", "c1", true, [], .ok "s1", [SEvent.sessionError "TIMEOUT"], .ok ""⟩)
      = [(TaskState.completed, none)] := by
  constructor
  · decide
  · decide

/-- C1 as amended: in streaming mode, a `session.error` whose message
contains "timeout" case-insensitively (the source lower-cases the message
first) resolves the run as Completed, publishing one lastChunk artifact
whose text extends the text accumulated before the error; a `session.error`
whose lower-cased message does not contain "timeout" rejects the run, and
the one terminal status-update is Failed with a non-empty message. -/
theorem session_error_dichotomy (cfg : ExecConfig)
    (tid cid sid m : String) (hasTask : Bool) (parts : List MsgPart)
    (pre rest : List SEvent) (bo : Except String String)
    (hstream : cfg.streaming = true)
    (hpre : ∀ e ∈ pre, isSettling e = false) :
    (containsTimeout m = true →
      finalStatuses (execute cfg ⟨tid, cid, hasTask, parts, .ok sid,
          pre ++ SEvent.sessionError m :: rest, bo⟩)
        = [(TaskState.completed, none)] ∧
      ∃ u, finalArtifacts (execute cfg ⟨tid, cid, hasTask, parts, .ok sid,
          pre ++ SEvent.sessionError m :: rest, bo⟩)
        = [(cfg.streamArtifactChunks, "response",
            (procEvents cfg.streamArtifactChunks tid cid pre initStream).1.accumulated
              ++ u)]) ∧
    (containsTimeout m = false →
      finalStatuses (execute cfg ⟨tid, cid, hasTask, parts, .ok sid,
          pre ++ SEvent.sessionError m :: rest, bo⟩)
        = [(TaskState.failed, some (connUserMsg cfg m))] ∧
      connUserMsg cfg m ≠ "") := by
  constructor
  · intro hct
    have hrun := runStream_error_timeout cfg.streamArtifactChunks tid cid pre rest m
      hpre hct
    have hint : ∀ a ∈ ({ (procEvents cfg.streamArtifactChunks tid cid pre initStream).1
        with timedOut := true } : StreamState).published, isIntermediate a = true := by
      have h0 := runStream_intermediate cfg.streamArtifactChunks tid cid
        (pre ++ SEvent.sessionError m :: rest)
      rw [hrun] at h0
      simpa using h0
    have hshape := execute_streaming_resolved cfg
      ⟨tid, cid, hasTask, parts, .ok sid, pre ++ SEvent.sessionError m :: rest, bo⟩
      sid _ hstream rfl hrun
    have hsnil := finalStatuses_nil_of_intermediate _ hint
    have hanil := finalArtifacts_nil_of_intermediate _ hint
    constructor
    · rw [hshape]
      exact finalStatuses_shape_resolved hasTask cfg.streamArtifactChunks tid cid sid _ _ hsnil
    · have htext : ∃ u, streamText
          { (procEvents cfg.streamArtifactChunks tid cid pre initStream).1
            with timedOut := true }
          = (procEvents cfg.streamArtifactChunks tid cid pre initStream).1.accumulated
            ++ u := by
        by_cases hacc :
          (procEvents cfg.streamArtifactChunks tid cid pre initStream).1.accumulated = ""
        · refine ⟨timeoutFallback, ?_⟩
          have hs1 : streamText
              { (procEvents cfg.streamArtifactChunks tid cid pre initStream).1
                with timedOut := true } = timeoutFallback := by
            simp [streamText, hacc, timeoutFallback, emptyFallback]
          rw [hs1, hacc]
          rfl
        · have hne := append_ne_empty_left
            (procEvents cfg.streamArtifactChunks tid cid pre initStream).1.accumulated
            timeoutNote hacc
          refine ⟨timeoutNote, ?_⟩
          simp [streamText, hacc, hne]
      obtain ⟨u, hu⟩ := htext
      refine ⟨u, ?_⟩
      rw [hshape, ← hu]
      exact finalArtifacts_shape_resolved hasTask cfg.streamArtifactChunks tid cid sid _ _ hanil
  · intro hct
    have hrun := runStream_error_reject cfg.streamArtifactChunks tid cid pre rest m
      hpre hct
    have hint : ∀ a ∈ ((procEvents cfg.streamArtifactChunks tid cid pre initStream).1 :
        StreamState).published, isIntermediate a = true := by
      have h0 := runStream_intermediate cfg.streamArtifactChunks tid cid
        (pre ++ SEvent.sessionError m :: rest)
      rw [hrun] at h0
      simpa using h0
    have hshape := execute_streaming_rejected cfg
      ⟨tid, cid, hasTask, parts, .ok sid, pre ++ SEvent.sessionError m :: rest, bo⟩
      sid m _ hstream rfl hrun
    have hsnil := finalStatuses_nil_of_intermediate _ hint
    constructor
    · rw [hshape]
      exact finalStatuses_shape_rejected hasTask tid cid sid (connUserMsg cfg m) _ hsnil
    · exact connUserMsg_ne_empty cfg m

/-- Closed instantiation of `session_error_dichotomy`: after a delta "Hi", a
"Request timeout reached" session-error completes; a "boom" session-error
fails with the non-empty message "Error: boom". -/
theorem session_error_dichotomy_witness :
    (finalStatuses (execute ⟨true, false, ""⟩
        ⟨"t1", "c1", true, [], .ok "s1",
          [SEvent.messageDelta "Hi"] ++ SEvent.sessionError "Request timeout reached" :: [],
          .ok ""⟩)
      = [(TaskState.completed, none)] ∧
     ∃ u, finalArtifacts (execute ⟨true, false, ""⟩
        ⟨"t1", "c1", true, [], .ok "s1",
          [SEvent.messageDelta "Hi"] ++ SEvent.sessionError "Request timeout reached" :: [],
          .ok ""⟩)
      = [(false, "response",
          (procEvents false "t1" "c1" [SEvent.messageDelta "Hi"] initStream).1.accumulated
            ++ u)]) ∧
    (finalStatuses (execute ⟨true, false, ""⟩
        ⟨"t2", "c2", true, [], .ok "s2",
          [] ++ SEvent.sessionError "boom" :: [], .ok ""⟩)
      = [(TaskState.failed, some (connUserMsg ⟨true, false, ""⟩ "boom"))] ∧
     connUserMsg ⟨true, false, ""⟩ "boom" ≠ "") :=
  ⟨(session_error_dichotomy ⟨true, false, ""⟩ "t1" "c1" "s1" "Request timeout reached"
      true [] [SEvent.messageDelta "Hi"] [] (.ok "") rfl (by decide)).1 (by decide),
   (session_error_dichotomy ⟨true, false, ""⟩ "t2" "c2" "s2" "boom"
      true [] [] [] (.ok "") rfl (by decide)).2 (by decide)⟩

/-! ### The finally-block invariant -/

/-- Actions that are neither the task-untracking nor the recorder-context
clearing (everything the try/catch body may perform). -/
def notCleanup : Action → Bool
  | .untrackTask _ => false
  | .clearHooksContext => false
  | _ => true

theorem intermediate_notCleanup (a : Action) (h : isIntermediate a = true) :
    notCleanup a = true := by
  cases a <;> first | rfl | simp [isIntermediate] at h

theorem finalize_notCleanup (chunking : Bool) (t c txt : String) :
    ∀ a ∈ finalize chunking t c txt, notCleanup a = true := by
  intro a ha
  unfold finalize at ha
  rcases List.mem_append.mp ha with ha | ha
  · split at ha <;> (rw [List.mem_singleton.mp ha]; rfl)
  · simp only [List.mem_cons, List.mem_singleton] at ha
    rcases ha with ha | ha | ha
    · subst ha; rfl
    · subst ha; rfl
    · cases ha

theorem catchActions_notCleanup (cfg : ExecConfig) (t c m : String) :
    ∀ a ∈ catchActions cfg t c m, notCleanup a = true := by
  intro a ha
  simp only [catchActions, List.mem_cons, List.mem_singleton] at ha
  rcases ha with ha | ha | ha
  · subst ha; rfl
  · subst ha; rfl
  · cases ha

theorem executeTry_notCleanup (cfg : ExecConfig) (inp : ExecInput) :
    ∀ a ∈ (executeTry cfg inp).1, notCleanup a = true := by
  have hpre : ∀ a ∈ (if inp.hasTaskRecord then ([] : List Action)
      else [Action.publishTask inp.taskId inp.contextId])
      ++ [Action.publishStatus inp.taskId inp.contextId .working
            (some "Processing request...") false], notCleanup a = true := by
    intro a ha
    rcases List.mem_append.mp ha with ha | ha
    · split at ha
      · simp at ha
      · rw [List.mem_singleton.mp ha]; rfl
    · rw [List.mem_singleton.mp ha]; rfl
  intro a ha
  rcases hacq : inp.acquire with m | sid
  · simp only [executeTry, hacq] at ha
    exact hpre a ha
  · simp only [executeTry, hacq] at ha
    by_cases hs : cfg.streaming = true
    · rw [if_pos hs] at ha
      rcases hrs : runStream cfg.streamArtifactChunks inp.taskId inp.contextId
        inp.events with ⟨st, sv⟩
      rw [hrs] at ha
      have hint : ∀ x ∈ st.published, isIntermediate x = true := by
        have h0 := runStream_intermediate cfg.streamArtifactChunks inp.taskId
          inp.contextId inp.events
        rw [hrs] at h0
        exact h0
      cases sv with
      | resolved =>
        simp only [] at ha
        rcases List.mem_append.mp ha with ha | ha
        · rcases List.mem_append.mp ha with ha | ha
          · rcases List.mem_append.mp ha with ha | ha
            · exact hpre a ha
            · rw [List.mem_singleton.mp ha]; rfl
          · exact intermediate_notCleanup a (hint a ha)
        · exact finalize_notCleanup _ _ _ _ a ha
      | rejected m =>
        simp only [] at ha
        rcases List.mem_append.mp ha with ha | ha
        · rcases List.mem_append.mp ha with ha | ha
          · exact hpre a ha
          · rw [List.mem_singleton.mp ha]; rfl
        · exact intermediate_notCleanup a (hint a ha)
    · rw [if_neg hs] at ha
      rcases hbo : inp.bufferedOutcome with m | content
      · rw [hbo] at ha
        simp only [] at ha
        split at ha
        · rcases List.mem_append.mp ha with ha | ha
          · rcases List.mem_append.mp ha with ha | ha
            · exact hpre a ha
            · rw [List.mem_singleton.mp ha]; rfl
          · exact finalize_notCleanup _ _ _ _ a ha
        · rcases List.mem_append.mp ha with ha | ha
          · exact hpre a ha
          · rw [List.mem_singleton.mp ha]; rfl
      · rw [hbo] at ha
        simp only [] at ha
        rcases List.mem_append.mp ha with ha | ha
        · rcases List.mem_append.mp ha with ha | ha
          · exact hpre a ha
          · rw [List.mem_singleton.mp ha]; rfl
        · exact finalize_notCleanup _ _ _ _ a ha

/-- C8: every run of `execute` — success, failure (including failed session
acquisition), timeout, and the run cancelled mid-flight (cancellation is
advisory and does not abort `execute`) — ends with exactly one
`untrackTask` of its taskId followed by exactly one clearing of the
recorder's correlation context, and performs neither anywhere else. -/
theorem execute_always_cleans_up (cfg : ExecConfig) (inp : ExecInput) :
    (∃ l, execute cfg inp =
      l ++ [Action.untrackTask inp.taskId, Action.clearHooksContext]) ∧
    (execute cfg inp).count (Action.untrackTask inp.taskId) = 1 ∧
    (execute cfg inp).count Action.clearHooksContext = 1 := by
  have htailu : Action.untrackTask inp.taskId ∉ (executeTry cfg inp).1 := by
    intro hmem
    have := executeTry_notCleanup cfg inp _ hmem
    simp [notCleanup] at this
  have htailc : Action.clearHooksContext ∉ (executeTry cfg inp).1 := by
    intro hmem
    have := executeTry_notCleanup cfg inp _ hmem
    simp [notCleanup] at this
  have hcatchu : ∀ m, Action.untrackTask inp.taskId
      ∉ catchActions cfg inp.taskId inp.contextId m := by
    intro m hmem
    have := catchActions_notCleanup cfg inp.taskId inp.contextId m _ hmem
    simp [notCleanup] at this
  have hcatchc : ∀ m, Action.clearHooksContext
      ∉ catchActions cfg inp.taskId inp.contextId m := by
    intro m hmem
    have := catchActions_notCleanup cfg inp.taskId inp.contextId m _ hmem
    simp [notCleanup] at this
  refine ⟨⟨Action.setHooksContext inp.taskId inp.contextId ::
      ((executeTry cfg inp).1
        ++ (match (executeTry cfg inp).2 with
            | none => []
            | some m => catchActions cfg inp.taskId inp.contextId m)), by
        show execute cfg inp = _
        rw [execute]⟩, ?_, ?_⟩
  · rcases hsnd : (executeTry cfg inp).2 with _ | m <;>
      simp [execute, hsnd, List.count_append, List.count_cons,
        List.count_eq_zero.mpr htailu, List.count_eq_zero.mpr (hcatchu _)]
  · rcases hsnd : (executeTry cfg inp).2 with _ | m <;>
      simp [execute, hsnd, List.count_append, List.count_cons,
        List.count_eq_zero.mpr htailc, List.count_eq_zero.mpr (hcatchc _)]

end A2AC
